import Mathlib

/-!
Verification of the motif-mark program (src/motif-mark-oop.py) against its
natural-language specification.  The Python source is shallowly embedded:
strings become `List Char`, the compiled regex pattern of `build_regex`
becomes an ordered list of per-position character alternatives, Python's
real-valued arithmetic becomes `ℚ`, fallible computations (regex search with
no match, `max` of an empty collection, `random.choice` on an empty pool,
attribute access on `None`) become `Option`.
-/

namespace MotifMark

/-- ASCII lower-casing, modelling Python `str.lower()` on the characters
that occur in sequences and motifs. -/
def lowerChar (c : Char) : Char :=
  if 'A' ≤ c ∧ c ≤ 'Z' then Char.ofNat (c.toNat + 32) else c

/-- The ambiguity-code dictionary of `build_regex` (source lines 131-143);
`none` for characters absent from the dictionary. -/
def mapping : Char → Option (List Char)
  | 'y' => some ['c', 't', 'u']
  | 't' => some ['u', 't']
  | 'u' => some ['u', 't']
  | 'r' => some ['a', 'g']
  | 'm' => some ['a', 'c']
  | 'k' => some ['g', 't']
  | 's' => some ['g', 'c']
  | 'w' => some ['a', 't']
  | 'h' => some ['a', 'c', 't']
  | 'b' => some ['c', 'g', 't']
  | 'v' => some ['a', 'c', 'g']
  | 'd' => some ['a', 'g', 't']
  | 'n' => some ['a', 't', 'c', 'g', 'u']
  | _ => none

/-- The characters that are special in Python regular expressions.  An
unmapped motif character that is NOT one of these is inserted into the
pattern string by `build_regex` as a plain literal; an unmapped
metacharacter instead takes its regex meaning downstream (for example a
lone parenthesis makes `re.match` fail, a dot matches any character), a
behavior outside this per-position embedding, so statements about unmapped
characters are scoped to exclude this list. -/
def regexMeta : List Char :=
  ['.', '^', '$', '*', '+', '?', '|', '(', ')', '[', ']',
   Char.ofNat 92, Char.ofNat 123, Char.ofNat 125]

/-- `build_regex` (source lines 128-147): `mapping.get(base, base)` for each
motif character, i.e. one alternative list per position, an unmapped
character passing through as a single literal.  This per-position reading
of the produced regex string is faithful for motifs whose unmapped
characters are outside `regexMeta`; theorems about unmapped characters
carry that scope as a hypothesis. -/
def build_regex (motif : List Char) : List (List Char) :=
  motif.map fun base => (mapping base).getD [base]

/-- Anchored matching of a per-position pattern against the front of a
sequence, modelling `re.match` for the fixed-length character-class or
literal patterns that `build_regex` produces from motifs free of regex
metacharacters. -/
def matchPat : List (List Char) → List Char → Bool
  | [], _ => true
  | _ :: _, [] => false
  | alt :: ps, c :: cs => alt.contains c && matchPat ps cs

/-- `find_motif` (source lines 149-160): lower-case the sequence and the
motif, compile the motif, and for every start index `i` of the sequence
record `(i, i + L - 1)` whenever the pattern matches at `i`. -/
def find_motif (seq motif : List Char) : List (Int × Int) :=
  (List.range (seq.map lowerChar).length).filterMap fun i =>
    if matchPat (build_regex (motif.map lowerChar)) ((seq.map lowerChar).drop i) then
      some ((i : Int), (i : Int) + ((motif.map lowerChar).length : Int) - 1)
    else none

/-- Unambiguous exon base, from the character class of
`re.search("[ACTGU]+", ...)` (source line 199): upper case only. -/
def isExonBase (c : Char) : Bool :=
  c = 'A' || c = 'C' || c = 'T' || c = 'G' || c = 'U'

/-- Length of the maximal run of `p`-characters at the front of a list. -/
def runLenP (p : Char → Bool) : List Char → Nat
  | [] => 0
  | c :: rest => if p c then runLenP p rest + 1 else 0

/-- First maximal run of `p`-characters: `re.search` for a pattern `[X]+`
returns `(match.start, match.end - 1)` of the leftmost maximal run, or
fails when there is none. -/
def findExonP (p : Char → Bool) : List Char → Option (Nat × Nat)
  | [] => none
  | c :: rest =>
    if p c then some (0, runLenP p (c :: rest) - 1)
    else (findExonP p rest).map fun q => (q.1 + 1, q.2 + 1)

/-- Exon detection of the source (line 199-200):
`re.search("[ACTGU]+", seq)` giving `Exon(match.start, match.end - 1)`. -/
def findExon : List Char → Option (Nat × Nat) :=
  findExonP isExonBase

/-- Case-insensitive exon base, following the specification words of
section 4.4 ("A, C, T, G, U, case-insensitive"); for comparison with the
source's `isExonBase` only. -/
def isExonBaseCI (c : Char) : Bool :=
  lowerChar c = 'a' || lowerChar c = 'c' || lowerChar c = 't' ||
    lowerChar c = 'g' || lowerChar c = 'u'

/-- Case-insensitive exon detection, following the specification words of
section 4.4; for comparison with the source's `findExon` only. -/
def findExonCI : List Char → Option (Nat × Nat) :=
  findExonP isExonBaseCI

/-- The per-position alternative sets of the specification's section 4.1
table, for comparison with `build_regex`; unlisted characters are literal. -/
def specAltSet : Char → List Char
  | 'y' => ['c', 't', 'u']
  | 't' => ['t', 'u']
  | 'u' => ['t', 'u']
  | 'r' => ['a', 'g']
  | 'm' => ['a', 'c']
  | 'k' => ['g', 't']
  | 's' => ['g', 'c']
  | 'w' => ['a', 't']
  | 'h' => ['a', 'c', 't']
  | 'b' => ['c', 'g', 't']
  | 'v' => ['a', 'c', 'g']
  | 'd' => ['a', 'g', 't']
  | 'n' => ['a', 't', 'c', 'g', 'u']
  | c => [c]

/-- The motif alphabet the specification's table covers: the thirteen
ambiguity codes plus the literal bases a, c, g. -/
def validMotifChars : List Char :=
  ['a', 'c', 'g', 't', 'u', 'y', 'r', 'm', 'k', 's', 'w', 'h', 'b', 'v', 'd', 'n']

/-- A motif drawable (source lines 17-25): scaled start/stop and a color. -/
structure Motif where
  start : ℚ
  stop : ℚ
  color : ℚ × ℚ × ℚ

/-- An exon drawable (source lines 43-50). -/
structure Exon where
  start : ℚ
  stop : ℚ

/-- A gene drawable (source lines 64-68). -/
structure Gene where
  start : ℚ
  stop : ℚ
  name : String

/-- A gene group (source lines 89-97): the exon slot is `Option` because
the source assigns `None` when exon detection fails (lines 197-202). -/
structure GeneGroup where
  exon : Option Exon
  motifs : List Motif
  gene : Gene

/-- Exon construction of the main loop (lines 197-202): `None` when
`re.search` finds no run. -/
def mkExon (seq : List Char) : Option Exon :=
  (findExon seq).map fun q => ⟨(q.1 : ℚ), (q.2 : ℚ)⟩

/-- Gene construction (line 203): `Gene(0, len(seq) - 1, name)`. -/
def mkGene (name : String) (seq : List Char) : Gene :=
  ⟨0, (seq.length : ℚ) - 1, name⟩

/-- Motif-object construction of the main loop (lines 191-196): one `Motif`
per occurrence of each motif of the dictionary. -/
def mkMotifs (seq : List Char) (motifDict : List (String × (ℚ × ℚ × ℚ))) : List Motif :=
  (motifDict.map fun mc =>
    (find_motif seq mc.1.toList).map fun pos => Motif.mk (pos.1 : ℚ) (pos.2 : ℚ) mc.2).flatten

/-- Gene-group construction (line 204): built and collected even when the
exon is missing. -/
def buildGeneGroup (name : String) (seq : List Char)
    (motifDict : List (String × (ℚ × ℚ × ℚ))) : GeneGroup :=
  ⟨mkExon seq, mkMotifs seq motifDict, mkGene name seq⟩

/-- Canvas width (source line 208). -/
def WIDTH : ℚ := 1000

/-- Horizontal padding (source line 219). -/
def x_padding : ℚ := 50

/-- Python `max` over the gene stops (line 224): raises `ValueError` on an
empty collection, modelled as `none`. -/
def max_gene_length : List ℚ → Option ℚ
  | [] => none
  | x :: xs => some (xs.foldl max x)

/-- The scale-factor computation (line 225):
`(WIDTH - 2 * x_padding) / max_gene_length`. -/
def scale_factor_of (stops : List ℚ) : Option ℚ :=
  (max_gene_length stops).map fun m => (WIDTH - 2 * x_padding) / m

/-- Vertical position of row `i` (line 229): `y_padding + i * 80`. -/
def y_pos (i : Nat) : Nat := 50 + i * 80

/-- Canvas height (line 209): `100 + groupCount * 70`. -/
def HEIGHT (n : Nat) : Nat := 100 + n * 70

/-- The in-place scaling step of the drawing loop (lines 230-236); the
source dereferences `gene_group.exon.start` unconditionally, so a group
whose exon is `None` raises `AttributeError`, modelled as `none`. -/
def scaleGroup (sf : ℚ) (g : GeneGroup) : Option GeneGroup :=
  match g.exon with
  | none => none
  | some e =>
    some ⟨some ⟨sf * e.start, sf * e.stop⟩,
          g.motifs.map fun m => ⟨sf * m.start, sf * m.stop, m.color⟩,
          ⟨sf * g.gene.start, sf * g.gene.stop, g.gene.name⟩⟩

/-- The five-color palette (source lines 170-174). -/
def color_set : List (ℚ × ℚ × ℚ) :=
  [(0.055, 0.722, 0.733), (0.471, 0.369, 0.941), (0.863, 0.149, 0.498),
   (0.996, 0.380, 0), (1, 0.690, 0)]

/-- The color-assignment loop (source lines 179-183): for each motif line,
`random.choice(list(color_set))` then remove the chosen color.  The random
pick is modelled by an arbitrary `choice` function reduced modulo the pool
size; a pick from an empty pool (`IndexError` in Python) is `none`. -/
def assignColors (choice : List (ℚ × ℚ × ℚ) → Nat) :
    List String → List (ℚ × ℚ × ℚ) → Option (List (String × (ℚ × ℚ × ℚ)))
  | [], _ => some []
  | m :: rest, pool =>
    match pool with
    | [] => none
    | p :: ps =>
      (assignColors choice rest
          ((p :: ps).eraseIdx (choice (p :: ps) % (p :: ps).length))).map
        fun d => (m, (p :: ps).getD (choice (p :: ps) % (p :: ps).length) p) :: d

/-! ## Helper lemmas -/

theorem matchPat_length_le :
    ∀ (ps : List (List Char)) (l : List Char), matchPat ps l = true → ps.length ≤ l.length
  | [], _, _ => Nat.zero_le _
  | _ :: _, [], h => by simp [matchPat] at h
  | _ :: ps, _ :: cs, h => by
    simp only [matchPat, Bool.and_eq_true] at h
    simpa using Nat.succ_le_succ (matchPat_length_le ps cs h.2)

theorem length_build_regex (m : List Char) : (build_regex m).length = m.length := by
  simp [build_regex]

/-- Membership characterization for `find_motif`: exactly the anchored
matches over all start indices of the sequence. -/
theorem mem_find_motif (seq motif : List Char) (p : Int × Int) :
    p ∈ find_motif seq motif ↔
      ∃ i : Nat, i < seq.length ∧
        matchPat (build_regex (motif.map lowerChar)) ((seq.map lowerChar).drop i) = true ∧
        p = ((i : Int), (i : Int) + (motif.length : Int) - 1) := by
  unfold find_motif
  rw [List.mem_filterMap]
  constructor
  · rintro ⟨i, hi, hf⟩
    rw [List.mem_range] at hi
    by_cases hc : matchPat (build_regex (motif.map lowerChar)) ((seq.map lowerChar).drop i) = true
    · rw [if_pos hc] at hf
      refine ⟨i, by simpa using hi, hc, ?_⟩
      simpa [List.length_map] using hf.symm
    · rw [if_neg hc] at hf
      cases hf
  · rintro ⟨i, hi, hc, rfl⟩
    refine ⟨i, ?_, ?_⟩
    · rw [List.mem_range]; simpa using hi
    · rw [if_pos hc]; simp [List.length_map]

/-! ## C6, C7, C8: layout and error handling, closed facts -/

/-- C6: a gene sequence with no uppercase-base run yields a GeneGroup that
is still constructed with `exon = none`, and the scaling step of the
drawing loop then fails on it (the `AttributeError` on `None.start`):
the code continues into layout with an undefined exon instead of skipping
the gene or aborting, as the claim specifies. -/
theorem claim_C6 :
    (buildGeneGroup "gene1" ['a', 'c', 'g', 't'] []).exon = none ∧
    scaleGroup 9 (buildGeneGroup "gene1" ['a', 'c', 'g', 't'] []) = none := by
  exact ⟨rfl, rfl⟩

/-- C7 counterexample: row 1 sits at `y_pos 1 = 50 + 1 * 80 = 130`, not at
`50 + 1 * 70 = 120` as the claim's shared-`rowSpacing` formula demands. -/
theorem claim_C7_counterexample :
    y_pos 1 = 130 ∧ ¬ y_pos 1 = 50 + 1 * 70 := by
  exact ⟨rfl, by decide⟩

/-- C7 amended: rows are spaced 80 apart starting at 50, while the canvas
height grows by 70 per group from a base of 100; the two spacings differ,
and the height for 3 groups is 310. -/
theorem claim_C7 :
    (∀ i : Nat, y_pos (i + 1) - y_pos i = 80) ∧
    (∀ n : Nat, HEIGHT (n + 1) - HEIGHT n = 70) ∧
    HEIGHT 3 = 310 ∧ y_pos 0 = 50 := by
  refine ⟨fun i => ?_, fun n => ?_, rfl, rfl⟩
  · simp [y_pos]; omega
  · simp [HEIGHT]; omega

theorem claim_C7_witness :
    y_pos 2 - y_pos 1 = 80 ∧ HEIGHT 1 - HEIGHT 0 = 70 ∧ HEIGHT 3 = 310 := by
  exact ⟨claim_C7.1 1, claim_C7.2.1 0, claim_C7.2.2.1⟩

/-- C8: on an empty collection of gene groups the maximum of gene stops is
undefined and the scale factor is undefined: the source reaches
`max(...)` on an empty generator and crashes with `ValueError`, there is
no explicit EmptyInput handling. -/
theorem claim_C8 :
    max_gene_length ([] : List ℚ) = none ∧ scale_factor_of ([] : List ℚ) = none := by
  exact ⟨rfl, rfl⟩

/-! ## C1, C3, C5, C9: counterexamples -/

/-- C1 counterexample: with the empty motif (length 0) and sequence "a",
the claim's start-index range is 0..1 and the window at index 1 satisfies
the (empty) compiled pattern, yet `find_motif` never anchors at index
`len(seq)`, so the occurrence `(1, 0)` is absent. -/
theorem claim_C1_counterexample :
    find_motif ['a'] [] = [(0, -1)] ∧
    matchPat (build_regex (([] : List Char).map lowerChar)) ((['a'].map lowerChar).drop 1)
      = true ∧
    ((1 : Int), (0 : Int)) ∉ find_motif ['a'] [] := by
  refine ⟨rfl, rfl, by decide⟩

/-- C3 counterexample: a batch whose longest gene has sequence length 100
has `gene.stop = 99`, so the scale factor is `(1000 - 100) / 99 = 100/11`,
not 9 as the claim computes. -/
theorem claim_C3_counterexample :
    scale_factor_of [(mkGene "g" (List.replicate 100 'a')).stop] = some (100 / 11) ∧
    (100 / 11 : ℚ) ≠ 9 := by
  constructor
  · simp [scale_factor_of, max_gene_length, mkGene, WIDTH, x_padding]
    norm_num
  · norm_num

/-- C5 counterexample: the source's exon search is case-sensitive
(`[ACTGU]+`, uppercase only): the all-lowercase sequence "a" has no exon
for the source, while the claim's case-insensitive reading finds `(0,0)`. -/
theorem claim_C5_counterexample :
    findExon ['a'] = none ∧ findExonCI ['a'] = some (0, 0) := by
  exact ⟨rfl, rfl⟩

/-- C9 counterexample: a motif character with no mapping ('x') raises no
error: it passes through as a literal pattern position and the run goes on
to scan sequences with it, reporting occurrence (1, 1) in "axa" instead of
aborting with a CompilationError before any drawing. -/
theorem claim_C9_counterexample :
    build_regex ['x'] = [['x']] ∧ find_motif ['a', 'x', 'a'] ['x'] = [(1, 1)] := by
  exact ⟨rfl, by decide⟩

/-! ## C1: the occurrence scanner, amended to motifs of positive length -/

/-- C1 amended: for motifs of positive length L with L ≤ |S|, `find_motif`
returns exactly the intervals `(i, i + L - 1)` over the start indices
`i = 0 .. |S| - L` at which the lower-cased window satisfies the compiled
pattern position by position; overlapping occurrences are all reported and
no occurrence arises from a short window at the tail. -/
theorem claim_C1 (seq motif : List Char) (h1 : 1 ≤ motif.length)
    (h2 : motif.length ≤ seq.length) (p : Int × Int) :
    p ∈ find_motif seq motif ↔
      ∃ i : Nat, i ≤ seq.length - motif.length ∧
        matchPat (build_regex (motif.map lowerChar)) ((seq.map lowerChar).drop i) = true ∧
        p = ((i : Int), (i : Int) + (motif.length : Int) - 1) := by
  rw [mem_find_motif]
  apply exists_congr
  intro i
  constructor
  · rintro ⟨hi, hc, rfl⟩
    refine ⟨?_, hc, rfl⟩
    have hlen := matchPat_length_le _ _ hc
    rw [length_build_regex, List.length_map, List.length_drop, List.length_map] at hlen
    omega
  · rintro ⟨hi, hc, rfl⟩
    exact ⟨by omega, hc, rfl⟩

theorem claim_C1_witness :
    ((0 : Int), (1 : Int)) ∈ find_motif ['a', 'a', 'a'] ['a', 'a'] ∧
    ((1 : Int), (2 : Int)) ∈ find_motif ['a', 'a', 'a'] ['a', 'a'] := by
  constructor
  · exact (claim_C1 ['a', 'a', 'a'] ['a', 'a'] (by decide) (by decide) (0, 1)).mpr
      ⟨0, by decide, by decide, by decide⟩
  · exact (claim_C1 ['a', 'a', 'a'] ['a', 'a'] (by decide) (by decide) (1, 2)).mpr
      ⟨1, by decide, by decide, by decide⟩

/-! ## C10: interval invariants of the scanner output -/

/-- C10: every interval returned by `find_motif` has width
`stop - start = len(motif) - 1`, lies within the sequence, and the list is
strictly increasing in start index, so each start occurs at most once. -/
theorem claim_C10 (seq motif : List Char) :
    (∀ p ∈ find_motif seq motif,
      p.2 - p.1 = (motif.length : Int) - 1 ∧ 0 ≤ p.1 ∧
        p.2 ≤ (seq.length : Int) - 1) ∧
    List.Pairwise (fun a b : Int × Int => a.1 < b.1) (find_motif seq motif) := by
  constructor
  · intro p hp
    rw [mem_find_motif] at hp
    obtain ⟨i, hi, hc, rfl⟩ := hp
    have hlen := matchPat_length_le _ _ hc
    rw [length_build_regex, List.length_map, List.length_drop, List.length_map] at hlen
    refine ⟨by ring, by positivity, ?_⟩
    have : i + motif.length ≤ seq.length := by omega
    push_cast
    omega
  · unfold find_motif
    rw [List.pairwise_filterMap]
    apply List.Pairwise.imp ?_ (List.pairwise_lt_range _)
    intro a b hab q hq q' hq'
    simp only [Option.mem_def] at hq hq'
    split at hq
    · cases hq
      split at hq'
      · cases hq'
        simpa using hab
      · cases hq'
    · cases hq

theorem claim_C10_witness :
    ((1 : Int) - (0 : Int) = (((['a', 'a'] : List Char).length : Int)) - 1 ∧
      (0 : Int) ≤ (0 : Int) ∧
      (1 : Int) ≤ (((['a', 'a', 'a'] : List Char).length : Int)) - 1) ∧
    List.Pairwise (fun a b : Int × Int => a.1 < b.1)
      (find_motif ['a', 'a', 'a'] ['a', 'a']) := by
  exact ⟨(claim_C10 ['a', 'a', 'a'] ['a', 'a']).1 (0, 1) (by decide),
    (claim_C10 ['a', 'a', 'a'] ['a', 'a']).2⟩

/-! ## C2: the pattern compiler against the section 4.1 table -/

theorem build_regex_getD (motif : List Char) (i : Nat) (c : Char)
    (hc : motif[i]? = some c) :
    (build_regex motif).getD i [] = (mapping c).getD [c] := by
  rw [List.getD_eq_getElem?_getD, build_regex, List.getElem?_map, hc]
  rfl

/-- C2: on motifs over the table's alphabet, the compiled pattern has
exactly one alternative set per motif character (length preserved), and
the alternative set at each position equals, as a set of characters, the
section 4.1 table entry for that character (`t` and `u` both giving
`{t,u}`, `n` giving `{a,t,c,g,u}`, and a, c, g staying literal). -/
theorem claim_C2 (motif : List Char) (hv : ∀ c ∈ motif, c ∈ validMotifChars) :
    (build_regex motif).length = motif.length ∧
    ∀ (i : Nat) (c : Char), motif[i]? = some c →
      ∀ x : Char, x ∈ (build_regex motif).getD i [] ↔ x ∈ specAltSet c := by
  refine ⟨length_build_regex motif, ?_⟩
  intro i c hc x
  rw [build_regex_getD motif i c hc]
  have hcv : c ∈ validMotifChars := hv c (List.getElem?_mem hc)
  simp only [validMotifChars, List.mem_cons, List.not_mem_nil, or_false] at hcv
  rcases hcv with rfl | rfl | rfl | rfl | rfl | rfl | rfl | rfl | rfl | rfl | rfl | rfl |
    rfl | rfl | rfl | rfl <;>
    simp only [mapping, specAltSet, Option.getD_some, Option.getD_none, List.mem_cons,
      List.not_mem_nil, or_false] <;>
    tauto

theorem claim_C2_witness :
    (build_regex ['t']).length = (['t'] : List Char).length ∧
    ('u' ∈ (build_regex ['t']).getD 0 [] ↔ 'u' ∈ specAltSet 't') ∧
    ('a' ∉ (build_regex ['t']).getD 0 []) := by
  refine ⟨(claim_C2 ['t'] (by decide)).1, (claim_C2 ['t'] (by decide)).2 0 't' rfl 'u', ?_⟩
  have h := (claim_C2 ['t'] (by decide)).2 0 't' rfl 'a'
  intro ha
  have := h.mp ha
  simp [specAltSet] at this

/-! ## C9: unmapped motif characters pass through, no compilation error -/

/-- C9 amended: `build_regex` raises no error; for motifs whose unmapped
characters (no literal-base meaning, no ambiguity-code mapping) are not
regex metacharacters, each such character passes through unchanged as a
single literal pattern position — one entry of the compiled pattern, its
length preserved — rather than being rejected with a CompilationError
before drawing.  (An unmapped regex metacharacter instead takes its regex
meaning inside `re.match` downstream, outside this embedding's scope.) -/
theorem claim_C9 (motif : List Char)
    (hsafe : ∀ c ∈ motif, mapping c = none → c ∉ regexMeta) :
    (build_regex motif).length = motif.length ∧
    ∀ (i : Nat) (c : Char), motif[i]? = some c → mapping c = none →
      c ∉ regexMeta ∧ (build_regex motif)[i]? = some [c] := by
  refine ⟨length_build_regex motif, ?_⟩
  intro i c hc hm
  refine ⟨hsafe c (List.getElem?_mem hc) hm, ?_⟩
  rw [build_regex, List.getElem?_map, hc, Option.map_some', hm, Option.getD_none]

theorem claim_C9_witness :
    (build_regex ['x']).length = (['x'] : List Char).length ∧
    ('x' ∉ regexMeta ∧ (build_regex ['x'])[0]? = some ['x']) := by
  exact ⟨(claim_C9 ['x'] (by decide)).1, (claim_C9 ['x'] (by decide)).2 0 'x' rfl rfl⟩

/-! ## C5: exon detection, amended to the source's uppercase-only search -/

theorem runLenP_le (p : Char → Bool) : ∀ s : List Char, runLenP p s ≤ s.length
  | [] => Nat.le_refl 0
  | c :: rest => by
    by_cases hp : p c = true
    · simpa [runLenP, hp] using runLenP_le p rest
    · simp [runLenP, hp]

theorem runLenP_sound (p : Char → Bool) :
    ∀ (s : List Char) (k : Nat), k < runLenP p s → p (s.getD k 'x') = true
  | [], k, h => by simp [runLenP] at h
  | c :: rest, k, h => by
    by_cases hp : p c = true
    · rw [runLenP, if_pos hp] at h
      match k with
      | 0 => simpa using hp
      | k + 1 => simpa using runLenP_sound p rest k (by omega)
    · rw [runLenP, if_neg hp] at h
      omega

theorem runLenP_maximal (p : Char → Bool) :
    ∀ s : List Char, runLenP p s < s.length → p (s.getD (runLenP p s) 'x') = false
  | [], h => by simp at h
  | c :: rest, h => by
    by_cases hp : p c = true
    · rw [runLenP, if_pos hp] at h ⊢
      simpa using runLenP_maximal p rest (by simpa using h)
    · rw [runLenP, if_neg hp] at h ⊢
      simpa using hp

theorem findExonP_none (p : Char → Bool) :
    ∀ s : List Char, findExonP p s = none → ∀ c ∈ s, p c = false
  | [], _, c, hc => absurd hc (List.not_mem_nil c)
  | c0 :: rest, h, c, hc => by
    by_cases hp : p c0 = true
    · rw [findExonP, if_pos hp] at h
      cases h
    · rw [findExonP, if_neg hp] at h
      rw [Option.map_eq_none'] at h
      rcases List.mem_cons.mp hc with rfl | hmem
      · simpa using hp
      · exact findExonP_none p rest h c hmem

theorem findExonP_some (p : Char → Bool) :
    ∀ (s : List Char) (i j : Nat), findExonP p s = some (i, j) →
      i ≤ j ∧ j < s.length ∧
      (∀ k : Nat, i ≤ k → k ≤ j → p (s.getD k 'x') = true) ∧
      (∀ k : Nat, k < i → p (s.getD k 'x') = false) ∧
      (j + 1 < s.length → p (s.getD (j + 1) 'x') = false)
  | [], i, j, h => by simp [findExonP] at h
  | c :: rest, i, j, h => by
    by_cases hp : p c = true
    · rw [findExonP, if_pos hp] at h
      have hij : i = 0 ∧ j = runLenP p (c :: rest) - 1 := by
        have := Option.some.inj h
        exact ⟨(Prod.mk.injEq _ _ _ _ ▸ this).1.symm, (Prod.mk.injEq _ _ _ _ ▸ this).2.symm⟩
      obtain ⟨rfl, rfl⟩ := hij
      have hpos : 1 ≤ runLenP p (c :: rest) := by
        rw [runLenP, if_pos hp]; omega
      have hle : runLenP p (c :: rest) ≤ (c :: rest).length := runLenP_le p _
      refine ⟨Nat.zero_le _, by simp at hle ⊢; omega, ?_, ?_, ?_⟩
      · intro k _ hk
        exact runLenP_sound p _ k (by omega)
      · intro k hk
        omega
      · intro hlt
        have hj1 : runLenP p (c :: rest) - 1 + 1 = runLenP p (c :: rest) := by omega
        rw [hj1] at hlt ⊢
        exact runLenP_maximal p _ hlt
    · rw [findExonP, if_neg hp] at h
      rw [Option.map_eq_some'] at h
      obtain ⟨⟨i', j'⟩, hq, hqe⟩ := h
      have hi : i = i' + 1 ∧ j = j' + 1 := by
        have := hqe
        simp only [Prod.mk.injEq] at this
        exact ⟨this.1.symm, this.2.symm⟩
      obtain ⟨rfl, rfl⟩ := hi
      obtain ⟨h1, h2, h3, h4, h5⟩ := findExonP_some p rest i' j' hq
      refine ⟨by omega, by simp; omega, ?_, ?_, ?_⟩
      · intro k hk1 hk2
        match k with
        | 0 => omega
        | k + 1 => simpa using h3 k (by omega) (by omega)
      · intro k hk
        match k with
        | 0 => simpa using hp
        | k + 1 => simpa using h4 k (by omega)
      · intro hlt
        simpa using h5 (by simpa using hlt)

/-- C5 amended: exon detection locates the first maximal contiguous run of
unambiguous bases matched case-SENSITIVELY against uppercase A, C, T, G, U
(a lowercase run does not qualify), returning the run's start and stop
indices; when no uppercase run exists it finds nothing. -/
theorem claim_C5 (s : List Char) :
    (findExon s = none → ∀ c ∈ s, isExonBase c = false) ∧
    ∀ i j : Nat, findExon s = some (i, j) →
      i ≤ j ∧ j < s.length ∧
      (∀ k : Nat, i ≤ k → k ≤ j → isExonBase (s.getD k 'x') = true) ∧
      (∀ k : Nat, k < i → isExonBase (s.getD k 'x') = false) ∧
      (j + 1 < s.length → isExonBase (s.getD (j + 1) 'x') = false) := by
  exact ⟨findExonP_none isExonBase s, findExonP_some isExonBase s⟩

theorem claim_C5_witness :
    1 ≤ 2 ∧ 2 < (['a', 'C', 'G', 't'] : List Char).length ∧
    isExonBase ((['a', 'C', 'G', 't'] : List Char).getD 1 'x') = true ∧
    isExonBase ((['a', 'C', 'G', 't'] : List Char).getD 2 'x') = true ∧
    isExonBase ((['a', 'C', 'G', 't'] : List Char).getD 0 'x') = false ∧
    isExonBase ((['a', 'C', 'G', 't'] : List Char).getD 3 'x') = false := by
  obtain ⟨h1, h2, h3, h4, h5⟩ := (claim_C5 ['a', 'C', 'G', 't']).2 1 2 (by decide)
  exact ⟨h1, h2, h3 1 (by omega) (by omega), h3 2 (by omega) (by omega),
    h4 0 (by omega), h5 (by decide)⟩

/-! ## C3: the layout scale factor, amended numeric example -/

theorem foldl_max_init_le (xs : List ℚ) (a : ℚ) : a ≤ xs.foldl max a := by
  induction xs generalizing a with
  | nil => exact le_refl a
  | cons x xs ih => exact le_trans (le_max_left a x) (ih (max a x))

theorem foldl_max_le (xs : List ℚ) (a : ℚ) : ∀ x ∈ xs, x ≤ xs.foldl max a := by
  induction xs generalizing a with
  | nil => intro x hx; cases hx
  | cons y ys ih =>
    intro x hx
    rcases List.mem_cons.mp hx with rfl | hmem
    · exact le_trans (le_max_right a x) (foldl_max_init_le ys (max a x))
    · exact ih (max a y) x hmem

theorem foldl_max_mem (xs : List ℚ) (a : ℚ) : xs.foldl max a = a ∨ xs.foldl max a ∈ xs := by
  induction xs generalizing a with
  | nil => exact Or.inl rfl
  | cons y ys ih =>
    rcases ih (max a y) with h | h
    · rcases max_choice a y with hm | hm
      · left
        simpa [hm] using h
      · right
        refine List.mem_cons.mpr (Or.inl ?_)
        simpa [hm] using h
    · exact Or.inr (List.mem_cons_of_mem y h)

/-- C3 amended: the layout computes `maxGeneLength` as the maximum
`gene.stop` over all groups and the scale factor as
`(canvasWidth - 2 * xPadding) / maxGeneLength`, and multiplies the exon
and motif spans of a group by that identical factor; since
`gene.stop = sequence length - 1`, a batch whose longest gene has sequence
length 100 yields the factor `(1000 - 100) / 99 = 100/11`, not 9. -/
theorem claim_C3 (stops : List ℚ) (sf : ℚ) (hsf : scale_factor_of stops = some sf)
    (g : GeneGroup) (e : Exon) (he : g.exon = some e) :
    (∃ M, max_gene_length stops = some M ∧ (∀ s ∈ stops, s ≤ M) ∧ M ∈ stops ∧
      sf = (WIDTH - 2 * x_padding) / M) ∧
    ∃ g', scaleGroup sf g = some g' ∧
      g'.exon = some ⟨sf * e.start, sf * e.stop⟩ ∧
      g'.motifs = g.motifs.map (fun m => ⟨sf * m.start, sf * m.stop, m.color⟩) ∧
      g'.gene.stop = sf * g.gene.stop := by
  obtain ⟨M, hM, hsfM⟩ : ∃ M, max_gene_length stops = some M ∧
      sf = (WIDTH - 2 * x_padding) / M := by
    unfold scale_factor_of at hsf
    cases hmax : max_gene_length stops with
    | none => rw [hmax] at hsf; cases hsf
    | some M =>
      rw [hmax, Option.map_some'] at hsf
      exact ⟨M, rfl, (Option.some.inj hsf).symm⟩
  constructor
  · cases stops with
    | nil => simp [max_gene_length] at hM
    | cons x xs =>
      have hM' : xs.foldl max x = M := by
        rw [max_gene_length] at hM
        exact Option.some.inj hM
      refine ⟨M, hM, ?_, ?_, hsfM⟩
      · intro s hs
        rcases List.mem_cons.mp hs with rfl | hmem
        · exact hM' ▸ foldl_max_init_le xs s
        · exact hM' ▸ foldl_max_le xs x s hmem
      · rcases foldl_max_mem xs x with h | h
        · exact List.mem_cons.mpr (Or.inl (by rw [← hM', h]))
        · exact List.mem_cons.mpr (Or.inr (hM' ▸ h))
  · refine ⟨⟨some ⟨sf * e.start, sf * e.stop⟩,
      g.motifs.map (fun m => ⟨sf * m.start, sf * m.stop, m.color⟩),
      ⟨sf * g.gene.start, sf * g.gene.stop, g.gene.name⟩⟩, ?_, rfl, rfl, rfl⟩
    simp [scaleGroup, he]

theorem claim_C3_witness :
    (∃ M, max_gene_length [(9 : ℚ)] = some M ∧ (∀ s ∈ [(9 : ℚ)], s ≤ M) ∧
      M ∈ [(9 : ℚ)] ∧ (100 : ℚ) = (WIDTH - 2 * x_padding) / M) ∧
    ∃ g', scaleGroup 100 (⟨some ⟨1, 2⟩, [⟨3, 4, (0, 0, 0)⟩], ⟨0, 9, "g"⟩⟩ : GeneGroup)
        = some g' ∧
      g'.exon = some ⟨(100 : ℚ) * 1, (100 : ℚ) * 2⟩ ∧
      g'.motifs = ([⟨3, 4, (0, 0, 0)⟩] : List Motif).map
        (fun m => ⟨100 * m.start, 100 * m.stop, m.color⟩) ∧
      g'.gene.stop = (100 : ℚ) * 9 := by
  exact claim_C3 [(9 : ℚ)] 100
    (by rw [scale_factor_of]; simp [max_gene_length, WIDTH, x_padding]; norm_num)
    (⟨some ⟨1, 2⟩, [⟨3, 4, (0, 0, 0)⟩], ⟨0, 9, "g"⟩⟩ : GeneGroup) ⟨1, 2⟩ rfl

/-! ## C4: color assignment runs out of colors by line count, not by
distinct-motif count, and exhaustion is an uncontrolled crash -/

theorem assignColors_short (choice : List (ℚ × ℚ × ℚ) → Nat) :
    ∀ (motifs : List String) (pool : List (ℚ × ℚ × ℚ)),
      pool.length < motifs.length → assignColors choice motifs pool = none
  | [], _, h => by simp at h
  | _ :: _, [], _ => rfl
  | m :: rest, p :: ps, h => by
    rw [assignColors]
    have hk : choice (p :: ps) % (p :: ps).length < (p :: ps).length :=
      Nat.mod_lt _ (by simp)
    have hlen : ((p :: ps).eraseIdx (choice (p :: ps) % (p :: ps).length)).length
        = ps.length := by
      rw [List.length_eraseIdx_of_lt hk]
      simp
    rw [assignColors_short choice rest _ (by rw [hlen]; simpa using h)]
    rfl

/-- C4: the number of motif-file lines, not the number of distinct motifs,
drives palette exhaustion, and exhaustion is a crash: a file of six
identical lines has one distinct motif (well within the five-color
palette) yet the assignment loop hits an empty pool and fails for every
possible sequence of random choices, with no configuration error naming
the distinct-motif count. -/
theorem claim_C4 (choice : List (ℚ × ℚ × ℚ) → Nat) :
    (List.replicate 6 "ygcy").dedup.length = 1 ∧
    assignColors choice (List.replicate 6 "ygcy") color_set = none := by
  constructor
  · decide
  · exact assignColors_short choice _ _ (by simp [color_set])

theorem claim_C4_witness :
    assignColors (fun _ => 0) (List.replicate 6 "ygcy") color_set = none := by
  exact (claim_C4 (fun _ => 0)).2

end MotifMark
